/-
Verification of the display/animation core of the renpy repository
(src/renpy/display/anim.py, src/renpy/display/layout.py, src/renpy/ui.py).

Times are modelled as rationals (ℚ).  Displayables that the code treats as
opaque values (images, widgets) are modelled by a type parameter `V`.
Python's float modulo `a % b` is `a - b * floor (a / b)`, written `pymod`.
-/

import Mathlib

set_option linter.unusedVariables false

/-! ## Python helpers -/

/-- Python's `%` on numbers: `a - b * ⌊a / b⌋` (for `b ≠ 0`). -/
def pymod (a b : ℚ) : ℚ := a - b * (⌊a / b⌋ : ℤ)

/-- Python truthiness of an optional number: `None` and `0` are falsy. -/
def truthyQ : Option ℚ → Bool
  | none => false
  | some q => q != 0

/-! ## anim.py: Edge and the SMAnimation adjacency map

An `Edge` (anim.py, class Edge) carries the names of the old and new
states, a delay, an optional transition effect (opaque, tagged by a `Nat`)
and an integer weight `prob`.  The extra `eid` field models Python object
identity: each `Edge(...)` call creates a distinct object. -/

structure Edge where
  old : String
  delay : ℚ
  new : String
  trans : Option Nat
  prob : Nat
  eid : Nat
deriving DecidableEq, Repr

/-- Model of `Edge.add` (anim.py line 99-101): `for i in range(0, self.prob):
sma.edges.setdefault(self.old, []).append(self)` — append the edge
`prob` times to the adjacency list of its old state.  The dict of lists
is modelled as a function `String → List Edge`, absent keys mapping
to `[]`. -/
def addEdge (m : String → List Edge) (e : Edge) : String → List Edge :=
  fun s => if s = e.old then m s ++ List.replicate e.prob e else m s

/-- The adjacency map built by `SMAnimation.__init__` from a list of edges
(each `args` element's `add` is called in order). -/
def buildEdges (es : List Edge) : String → List Edge :=
  es.foldl addEdge (fun _ => [])

/-- The probability with which `random.choice` over the list `l`
(anim.py line 197, `SMAnimation.pick_edge`) returns the edge `e`:
the number of occurrences of `e` in `l`, over the length of `l`. -/
def selProb (l : List Edge) (e : Edge) : ℚ := (l.count e : ℚ) / (l.length : ℚ)

/-- Sum of the `prob` weights of the edges in `es` whose old state is `s`. -/
def outWeight (es : List Edge) (s : String) : Nat :=
  ((es.filter (fun e => e.old = s)).map Edge.prob).sum

/-! ## anim.py: Animation -/

/-- A very large finite delay: `365.25 * 86400.0` seconds
(anim.py line 328, "One year, give or take"). -/
def oneYear : ℚ := 31557600

/-- Model of `Animation.__init__` (anim.py lines 299-328): even-position arguments
are images, odd-position arguments are delays; if the count is odd the
final image gets the `oneYear` delay.  Arguments are modelled as
`V ⊕ ℚ`; an image where a delay is expected (or vice versa) yields
`none` (a type error in Python). -/
def animInit {V : Type} : List (V ⊕ ℚ) → Option (List V × List ℚ)
  | [] => some ([], [])
  | [Sum.inl v] => some ([v], [oneYear])
  | Sum.inl v :: Sum.inr d :: rest =>
      (animInit rest).map (fun p => (v :: p.1, d :: p.2))
  | _ => none

/-- The frame-selection scan of `Animation.render` (anim.py lines 337-349):
walk `zip(images, delays)`; the first frame whose delay exceeds the
remaining time is shown, with a redraw requested after `delay - t`
seconds.  Returns `none` when the scan falls off the end (the Python
function returns `None`). -/
def animFrame {V : Type} : List V → List ℚ → ℚ → Option (V × ℚ)
  | i :: is, d :: ds, t =>
      if t < d then some (i, d - t) else animFrame is ds (t - d)
  | _, _, _ => none

/-- Model of `Animation.render` (anim.py lines 330-349): reduce the chosen timebase
modulo the total cycle duration, then scan. -/
def animRender {V : Type} (images : List V) (delays : List ℚ) (t : ℚ) :
    Option (V × ℚ) :=
  animFrame images delays (pymod t delays.sum)

/-! ## anim.py: the SMAnimation walk state

`SMAnimation.render` (anim.py lines 228-243) keeps three mutable fields
relevant to the timed walk: `edge_start` (the time the current edge
started, `None` before the first render), the current `edge` and the
current `state` name.  `random.choice` is modelled by an oracle
`choose : Nat → List Edge → Edge` receiving the number of picks made so
far, so that every possible sequence of random draws is some oracle. -/

structure SMState where
  edge_start : Option ℚ
  edge : Option Edge
  state : Option String
deriving Repr, DecidableEq

/-- Model of `SMAnimation.pick_edge` (anim.py lines 184-198): if the state has no
adjacency entry, set `edge` to `None` and leave `state` unchanged;
otherwise pick an edge from the list and move `state` to its `new`
name.  (In the code's dict, a key is present exactly when its list is
nonempty, since `Edge.add` appends right after `setdefault`.) -/
def pick_edge (edges : String → List Edge) (choose : List Edge → Edge)
    (s : SMState) (name : String) : SMState :=
  if edges name = [] then { s with edge := none }
  else
    let e := choose (edges name)
    { s with edge := some e, state := some e.new }

/-- The catch-up loop of `SMAnimation.render` (anim.py lines 240-243):

    while self.edge and t > self.edge_start + self.edge.delay:
        self.edge_start += self.edge.delay
        self.edge_cache = None
        self.pick_edge(self.edge.new)

`fuel` bounds the number of iterations (the Python loop can diverge on a
cycle of zero-delay edges); `none` means the bound was hit, `some s`
means the loop exited normally with state `s`.  `n` counts picks made so
far, feeding the oracle. -/
def smLoop (edges : String → List Edge) (choose : Nat → List Edge → Edge) :
    Nat → Nat → SMState → ℚ → Option SMState
  | 0, _, _, _ => none
  | fuel + 1, n, s, t =>
      match s.edge, s.edge_start with
      | some e, some es =>
          if t > es + e.delay then
            smLoop edges choose fuel (n + 1)
              (pick_edge edges (choose n)
                { s with edge_start := some (es + e.delay) } e.new) t
          else some s
      | _, _ => some s

/-- The state-update portion of `SMAnimation.render` (anim.py lines
228-243): select the timebase value `t`, reset to the initial state on a
missing or regressed `edge_start`, then run the catch-up loop. -/
def smRenderUpdate (edges : String → List Edge) (choose : Nat → List Edge → Edge)
    (initial : String) (fuel : Nat) (s : SMState) (t : ℚ) : Option SMState :=
  let s :=
    match s.edge_start with
    | none => pick_edge edges (choose 0) { s with edge_start := some t } initial
    | some es =>
        if t < es then
          pick_edge edges (choose 0) { s with edge_start := some t } initial
        else s
  smLoop edges (fun n => choose (n + 1)) fuel 0 s t

/-! ## layout.py: Motion -/

/-- The time-to-progress computation of `Motion.render` (layout.py lines
687-713), together with whether a redraw was requested during it.
`delay` is `None` or a number; Python's `if self.delay:` is falsy for
both `None` and `0`.  Returns `(progress handed to self.function,
redraw requested)`. -/
def motionProgress (period : ℚ) (rep bounce : Bool) (delay : Option ℚ)
    (t : ℚ) : ℚ × Bool :=
  let td :
      ℚ × Bool :=
    if truthyQ delay ∧ t ≥ delay.getD 0 then
      let t := delay.getD 0
      if rep then (pymod t period, false) else (t, false)
    else if rep then (pymod t period, true)
    else if t > period then (period, false)
    else (t, true)
  let t := td.1 / period
  let t := if bounce then (if t * 2 > 1 then 2 - t * 2 else t * 2) else t
  (t, td.2)

/-- Model of `Motion.__init__` (layout.py line 670-671): `if delay is None and not
repeat: delay = period`. -/
def motionInitDelay (period : ℚ) (rep : Bool) (delay : Option ℚ) : Option ℚ :=
  if delay = none ∧ ¬rep then some period else delay

/-! ## layout.py: Grid -/

/-- The state of a `Grid` read and written by `Grid.render`. -/
structure GridState (V : Type) where
  cols : Nat
  rows : Nat
  children : List V
  transpose : Bool
deriving Repr, DecidableEq

/-- The in-place transposition of `Grid.render` (layout.py lines 354-358):
`self.children[x + y * cols] = old_children[y + x * rows]` for every
`y < rows`, `x < cols`, reading from a copy of the old list.  Index
`i = x + y * cols` hence reads old index `i / cols + (i % cols) * rows`. -/
def gridTranspose {V : Type} [Inhabited V] (cols rows : Nat) (l : List V) :
    List V :=
  List.ofFn (n := cols * rows)
    (fun i => l.getD (i.val / cols + (i.val % cols) * rows) default)

/-- The child-list handling at the top of `Grid.render` (layout.py lines
340-358): raise `Exception("Grid not completely full.")` when the child
count differs from `cols * rows`, otherwise transpose once (clearing the
flag) if `transpose` is set.  All layout work follows this. -/
def gridChildStep {V : Type} [Inhabited V] (g : GridState V) :
    Except String (GridState V) :=
  if g.children.length ≠ g.cols * g.rows then
    Except.error ("Grid not completely full.")
  else if g.transpose then
    Except.ok { g with transpose := false,
                       children := gridTranspose g.cols g.rows g.children }
  else Except.ok g

/-! ## layout.py: Container and Fixed bookkeeping

Child renders are abstracted by a size function `sz : V → ℚ × ℚ` (what
`render(child, ...).get_size()` returns) and, for `Fixed`, a placement
function `place : V → ℚ × ℚ` (what `child.place(...)` returns). -/

/-- The offset/size bookkeeping of the base `Container.render` (layout.py
lines 98-104): render only `self.child` (the last child added) and set

    self.offsets = [ (0, 0) ]
    self.sizes = [ rv.get_size() ]

regardless of how many children the container holds.  Returns
`(offsets, sizes)`; an empty container (`self.child is None`) is not
modelled, so `children ≠ []` is assumed by taking the last element with
a default. -/
def containerRenderBookkeeping {V : Type} (sz : V → ℚ × ℚ) (dflt : V)
    (children : List V) : List (ℚ × ℚ) × List (ℚ × ℚ) :=
  ([(0, 0)], [sz (children.getLast? |>.getD dflt)])

/-- The offset/size bookkeeping of `Fixed.render` (layout.py lines
188-219): reset both lists, then append one size and one offset per
child, in order. -/
def fixedRenderBookkeeping {V : Type} (sz : V → ℚ × ℚ) (place : V → ℚ × ℚ)
    (live : V → Bool) (children : List V) :
    List (ℚ × ℚ) × List (ℚ × ℚ) :=
  (children.map (fun c => if live c then place c else (0, 0)),
   children.map (fun c => if live c then sz c else (0, 0)))

/-! ## layout.py: Zoom -/

/-- A `Zoom` configuration (layout.py lines 862-896).  `afterChild` is
`none` when no `after_child` was supplied (the constructor stores
`None`). -/
structure ZoomCfg (V : Type) where
  size : ℚ × ℚ
  rstart : ℚ × ℚ × ℚ × ℚ
  rend : ℚ × ℚ × ℚ × ℚ
  time : ℚ
  child : V
  afterChild : Option V
deriving Repr

/-- What a `Zoom.render` call produces: either the render of the
`after_child`, or the zoomed child with the interpolated crop
rectangle. -/
inductive ZoomOut (V : Type) where
  | after (v : V)
  | zoomed (v : V) (rect : ℚ × ℚ × ℚ × ℚ)
deriving Repr, DecidableEq

/-- Linear interpolation of the crop rectangle (layout.py line 919):
`(1.0 - done) * a + done * b` componentwise. -/
def zoomRect (z : ZoomCfg V) (done : ℚ) : ℚ × ℚ × ℚ × ℚ :=
  ((1 - done) * z.rstart.1 + done * z.rend.1,
   (1 - done) * z.rstart.2.1 + done * z.rend.2.1,
   (1 - done) * z.rstart.2.2.1 + done * z.rend.2.2.1,
   (1 - done) * z.rstart.2.2.2 + done * z.rend.2.2.2)

/-- Model of `Zoom.render` (layout.py lines 905-933): `done = min(st / time, 1.0)`
when `time` is truthy, else `1.0`; if an `after_child` is configured and
`done == 1.0`, return its render; otherwise crop and scale the child.
The result depends only on the arguments of this call — the object keeps
no record of having completed. -/
def zoomRender {V : Type} (z : ZoomCfg V) (st : ℚ) : ZoomOut V :=
  let d : ℚ := if z.time ≠ 0 then min (st / z.time) 1 else 1
  match z.afterChild with
  | some a => if d = 1 then ZoomOut.after a else ZoomOut.zoomed z.child (zoomRect z d)
  | none => ZoomOut.zoomed z.child (zoomRect z d)

/-! ## anim.py: State and SMAnimation.__call__ -/

/-- Model of `anim.State` (anim.py lines 7-61): a named image recipe.  `image` is
`none` for placeholder states; `atlist` holds opaque post-processing
transforms (tagged by `Nat`). -/
structure AnimState (V : Type) where
  name : String
  image : Option V
  atlist : List Nat
deriving Repr, DecidableEq

/-- Model of `State.motion_copy` (anim.py lines 56-61):

    if self.image is not None:
        child = self.mage
    return State(self.name, child, *self.atlist)

`State` defines no attribute `mage` (the field is `image`), so the
branch taken when `image is not None` raises `AttributeError`; the
embedding returns that as an error. -/
def motion_copy {V : Type} (s : AnimState V) (child : V) :
    Except String (AnimState V) :=
  match s.image with
  | some _ => Except.error ("AttributeError: State object has no attribute mage")
  | none => Except.ok { name := s.name, image := some child, atlist := s.atlist }

/-- Model of `SMAnimation.__call__` (anim.py lines 272-290): default `child` to
`new_widget`, run `motion_copy` on every state, and rebuild an
SMAnimation from the copies plus the original edges; the first
`AttributeError` raised by a `motion_copy` propagates. -/
def smCall {V : Type} (states : List (AnimState V)) (child : Option V)
    (new_widget : Option V) : Except String (List (AnimState V)) :=
  match (match child with | none => new_widget | some c => some c) with
  | none => Except.error ("TypeError: child is None")
  | some c => states.mapM (fun s => motion_copy s c)

/-! ## ui.py: the current-widget stack

`ui.py` keeps three module-level variables: `current` (a layer name or a
widget), `current_stack` and `current_once`.  Widgets are opaque values
`V`; `current` is a layer name (`Sum.inl`) or a widget (`Sum.inr`).
The stack is stored top-first (Python appends and pops at the end of
its list; the head of `current_stack` is that end). -/

structure UIState (V : Type) where
  current : String ⊕ V
  current_stack : List (String ⊕ V)
  current_once : Bool
deriving Repr, DecidableEq

/-- Model of `ui.close` (ui.py lines 97-113): raise if the stack is empty; raise
if the current widget was opened in single-use mode (`current_once`);
only then pop.  The result pairs the module state after the call with
the escaped exception message, if any; both raises happen before the
pop, so a raising call returns the state it received. -/
def uiClose {V : Type} (s : UIState V) : UIState V × Option String :=
  match s.current_stack with
  | [] => (s, some ("ui.close() called to close the last open layer or widget."))
  | c :: rest =>
      if s.current_once then
        (s, some ("ui.close() called when expecting a widget."))
      else ({ current := c, current_stack := rest,
              current_once := s.current_once }, none)

/-- Model of `ui.add` (ui.py lines 50-75): add `w` to the current widget (or the
scene lists of the current layer — a side effect outside this state);
if a single-use widget was pending, clear the flag and `close()`; set
`current_once := once`; if `make_current`, push the old current and make
`w` current.  An exception from the inner `close()` aborts the call,
keeping the mutations made up to the raise. -/
def uiAdd {V : Type} (s : UIState V) (w : V) (make_current once : Bool) :
    UIState V × Option String :=
  let step1 : UIState V × Option String :=
    if s.current_once then uiClose { s with current_once := false }
    else (s, none)
  match step1 with
  | (s1, some m) => (s1, some m)
  | (s1, none) =>
      let s2 := { s1 with current_once := once }
      if make_current then
        ({ s2 with current_stack := s2.current :: s2.current_stack,
                   current := Sum.inr w }, none)
      else (s2, none)

/-- Models of `ui.window` / `ui.button` / `ui.sizer` (ui.py lines 225-253,
396-418): each is `add(<widget>, True, True)` — open a single-use
widget. -/
def uiOpenOnce {V : Type} (s : UIState V) (w : V) : UIState V × Option String :=
  uiAdd s w true true

/-- Edge `A → B` with delay `1`, used to exercise the catch-up loop. -/
def eAB : Edge := ⟨"A", 1, "B", none, 1, 0⟩

/-- Edge `B → A` with delay `1`, the return edge of the round trip. -/
def eBA : Edge := ⟨"B", 1, "A", none, 1, 1⟩

/-! ## Helper lemmas about the adjacency map -/

/-- Counting an edge `e` in the adjacency list of its own old state after
folding `addEdge`: each occurrence of `e` in the added list contributes
`e.prob` copies. -/
theorem foldl_addEdge_count (es : List Edge) (e : Edge) :
    ∀ m : String → List Edge,
      ((es.foldl addEdge m) e.old).count e =
        (m e.old).count e + e.prob * es.count e := by
  induction es with
  | nil => intro m; simp
  | cons x xs ih =>
      intro m
      simp only [List.foldl_cons]
      rw [ih]
      by_cases hx : x = e
      · subst hx
        simp [addEdge, List.count_cons, List.count_append, List.count_replicate,
          Nat.mul_add, Nat.mul_one]
        ring
      · have hip : (List.replicate x.prob x).count e = 0 := by
          simp [List.count_replicate, hx]
        by_cases ho : e.old = x.old
        · simp [addEdge, ho, List.count_append, hip, List.count_cons, hx]
        · simp [addEdge, ho, List.count_cons, hx]

/-- Length of an adjacency list after folding `addEdge`: the sum of the
`prob` of the edges whose old state is `s`. -/
theorem foldl_addEdge_length (es : List Edge) (s : String) :
    ∀ m : String → List Edge,
      ((es.foldl addEdge m) s).length = (m s).length + outWeight es s := by
  induction es with
  | nil => intro m; simp [outWeight]
  | cons x xs ih =>
      intro m
      simp only [List.foldl_cons]
      rw [ih]
      by_cases ho : x.old = s
      · simp [addEdge, outWeight, ho, List.filter_cons, List.length_append,
          List.length_replicate]
        omega
      · have ho' : ¬ s = x.old := fun h => ho h.symm
        simp [addEdge, outWeight, ho, ho', List.filter_cons]

/-- C3: each `Edge` with weight `prob` that is added to an `SMAnimation`
occurs exactly `prob` times in the adjacency list of its old state; the
list's length is the total outgoing weight of that state; hence the
uniform random choice of `pick_edge` selects the edge with probability
`prob / (sum of outgoing weights)`. -/
theorem edge_prob_replication (es : List Edge) (e : Edge)
    (hnd : es.Nodup) (he : e ∈ es) :
    (buildEdges es e.old).count e = e.prob ∧
    (∀ s, (buildEdges es s).length = outWeight es s) ∧
    selProb (buildEdges es e.old) e =
      (e.prob : ℚ) / (outWeight es e.old : ℚ) := by
  have hc : (buildEdges es e.old).count e = e.prob := by
    rw [buildEdges, foldl_addEdge_count]
    have h1 : es.count e = 1 := List.count_eq_one_of_mem hnd he
    simp [h1]
  have hl : ∀ s, (buildEdges es s).length = outWeight es s := by
    intro s
    rw [buildEdges, foldl_addEdge_length]
    simp
  exact ⟨hc, hl, by simp [selProb, hc, hl e.old]⟩

/-- Witness for C3: the two-edge machine `A→B (prob 1)`, `A→B (prob 3)`;
the heavier edge occupies 3 of the 4 slots and is selected with
probability `3/4`. -/
theorem edge_prob_replication_witness :
    ([⟨"A", 1, "B", none, 1, 0⟩, ⟨"A", 1, "B", none, 3, 1⟩] : List Edge).Nodup ∧
    (⟨"A", 1, "B", none, 3, 1⟩ : Edge) ∈
      ([⟨"A", 1, "B", none, 1, 0⟩, ⟨"A", 1, "B", none, 3, 1⟩] : List Edge) ∧
    (buildEdges [⟨"A", 1, "B", none, 1, 0⟩, ⟨"A", 1, "B", none, 3, 1⟩] "A").count
      ⟨"A", 1, "B", none, 3, 1⟩ = 3 ∧
    (buildEdges [⟨"A", 1, "B", none, 1, 0⟩, ⟨"A", 1, "B", none, 3, 1⟩] "A").length = 4 ∧
    selProb (buildEdges [⟨"A", 1, "B", none, 1, 0⟩, ⟨"A", 1, "B", none, 3, 1⟩] "A")
      ⟨"A", 1, "B", none, 3, 1⟩ = (3 : ℚ) / 4 := by
  have h := edge_prob_replication
    [⟨"A", 1, "B", none, 1, 0⟩, ⟨"A", 1, "B", none, 3, 1⟩]
    ⟨"A", 1, "B", none, 3, 1⟩ (by decide) (by decide)
  refine ⟨by decide, by decide, h.1, ?_, ?_⟩
  · have := h.2.1 ("A")
    simpa using this
  · have := h.2.2
    norm_num [outWeight] at this
    simpa using this

/-- C5: an `Animation` with images `[i1, i2]` and delays `[1, 2]` reduces
the elapsed time modulo the total cycle duration `3` and scans with
running subtraction: at `t = 0.5` it shows `i1`, at `t = 1.5` it shows
`i2`, and at `t = 3.5` (after wraparound) it shows `i1` again; a
constructor call with an odd number of arguments gives the final image
the finite `oneYear` delay (`365.25 * 86400` seconds). -/
theorem animation_frame_selection {V : Type} (i1 i2 : V) :
    animInit [Sum.inl i1, Sum.inr (1 : ℚ), Sum.inl i2, Sum.inr 2] =
      some ([i1, i2], [1, 2]) ∧
    (animRender [i1, i2] [(1 : ℚ), 2] (1/2)).map Prod.fst = some i1 ∧
    (animRender [i1, i2] [(1 : ℚ), 2] (3/2)).map Prod.fst = some i2 ∧
    (animRender [i1, i2] [(1 : ℚ), 2] (7/2)).map Prod.fst = some i1 ∧
    animInit [Sum.inl i1, Sum.inr (1 : ℚ), Sum.inl i2] =
      some ([i1, i2], [1, oneYear]) ∧
    oneYear = (36525 : ℚ) / 100 * 86400 := by
  have hm1 : pymod (1/2) (1 + (2 + 0)) = 1/2 := by norm_num [pymod]
  have hm2 : pymod (3/2) (1 + (2 + 0)) = 3/2 := by norm_num [pymod]
  have hm3 : pymod (7/2) (1 + (2 + 0)) = 1/2 := by norm_num [pymod]
  refine ⟨by simp [animInit], ?_, ?_, ?_, by simp [animInit], by norm_num [oneYear]⟩
  · simp only [animRender, List.sum_cons, List.sum_nil, hm1, animFrame]
    norm_num
  · simp only [animRender, List.sum_cons, List.sum_nil, hm2, animFrame]
    norm_num
  · simp only [animRender, List.sum_cons, List.sum_nil, hm3, animFrame]
    norm_num

/-- C6: rendering a `Grid` whose child count differs from `cols * rows`
raises `Exception("Grid not completely full.")` before any transposition
or layout work; the child list is never truncated or wrapped. -/
theorem grid_wrong_count_fails {V : Type} [Inhabited V] (g : GridState V)
    (h : g.children.length ≠ g.cols * g.rows) :
    gridChildStep g = Except.error ("Grid not completely full.") := by
  simp [gridChildStep, h]

/-- Witness for C6: a `2 × 2` grid holding only three children fails. -/
theorem grid_wrong_count_fails_witness :
    ([10, 11, 12] : List Nat).length ≠ 2 * 2 ∧
    gridChildStep (⟨2, 2, [10, 11, 12], true⟩ : GridState Nat) =
      Except.error ("Grid not completely full.") :=
  ⟨by decide, grid_wrong_count_fails ⟨2, 2, [10, 11, 12], true⟩ (by decide)⟩

/-- The element picked by `gridTranspose` at position `x + y * cols` is the
old element at `y + x * rows`. -/
theorem gridTranspose_getD {V : Type} [Inhabited V] (cols rows : Nat)
    (l : List V) (x y : Nat) (hx : x < cols) (hy : y < rows) :
    (gridTranspose cols rows l).getD (x + y * cols) default =
      l.getD (y + x * rows) default := by
  have hidx : x + y * cols < cols * rows := by
    have h1 : x + y * cols < (y + 1) * cols := by
      rw [Nat.succ_mul]
      omega
    have h2 : (y + 1) * cols ≤ rows * cols :=
      Nat.mul_le_mul_right cols hy
    calc x + y * cols < (y + 1) * cols := h1
      _ ≤ rows * cols := h2
      _ = cols * rows := Nat.mul_comm rows cols
  have hlen : x + y * cols < (gridTranspose cols rows l).length := by
    simpa [gridTranspose] using hidx
  rw [List.getD_eq_getElem _ _ hlen]
  simp only [gridTranspose, List.getElem_ofFn]
  have hdiv : (x + y * cols) / cols = y := by
    rw [Nat.add_mul_div_right _ _ (Nat.pos_of_ne_zero (by omega)),
      Nat.div_eq_of_lt hx]
    omega
  have hmod : (x + y * cols) % cols = x := by
    rw [Nat.add_mul_mod_self_right]
    exact Nat.mod_eq_of_lt hx
  rw [hdiv, hmod]

/-- C7: on a fully populated `Grid` constructed with `transpose = True`,
the first render permutes the children (new index `x + y * cols` holds
the old element at `y + x * rows`) and clears the flag, so every
subsequent render leaves the child order — and the whole grid state —
unchanged. -/
theorem grid_transpose_once {V : Type} [Inhabited V] (g : GridState V)
    (hlen : g.children.length = g.cols * g.rows) (ht : g.transpose = true) :
    ∃ g', gridChildStep g = Except.ok g' ∧
      g'.cols = g.cols ∧ g'.rows = g.rows ∧
      g'.transpose = false ∧
      g'.children.length = g.cols * g.rows ∧
      (∀ x y, x < g.cols → y < g.rows →
        g'.children.getD (x + y * g.cols) default =
          g.children.getD (y + x * g.rows) default) ∧
      gridChildStep g' = Except.ok g' := by
  refine ⟨⟨g.cols, g.rows, gridTranspose g.cols g.rows g.children, false⟩,
    ?_, rfl, rfl, rfl, ?_, ?_, ?_⟩
  · simp [gridChildStep, hlen, ht]
  · simp [gridTranspose]
  · intro x y hx hy
    exact gridTranspose_getD g.cols g.rows g.children x y hx hy
  · simp [gridChildStep, gridTranspose]

/-- Witness for C7: the `2 × 2` grid `[10, 11, 12, 13]` with the transpose
flag set. -/
theorem grid_transpose_once_witness :
    ([10, 11, 12, 13] : List Nat).length = 2 * 2 ∧
    (⟨2, 2, [10, 11, 12, 13], true⟩ : GridState Nat).transpose = true ∧
    ∃ g', gridChildStep (⟨2, 2, [10, 11, 12, 13], true⟩ : GridState Nat) =
        Except.ok g' ∧
      g'.cols = 2 ∧ g'.rows = 2 ∧
      g'.transpose = false ∧
      g'.children.length = 2 * 2 ∧
      (∀ x y, x < 2 → y < 2 →
        g'.children.getD (x + y * 2) default =
          ([10, 11, 12, 13] : List Nat).getD (y + x * 2) default) ∧
      gridChildStep g' = Except.ok g' :=
  ⟨by decide, rfl,
    grid_transpose_once (⟨2, 2, [10, 11, 12, 13], true⟩ : GridState Nat)
      (by decide) rfl⟩

/-- C4: a `Motion` with `repeat = False`, `bounce = False`, `period = 2`,
`delay = 2` samples the interpolation function at progress `0` at
elapsed time `0`, at progress exactly `1` for every elapsed time `≥ 2`,
requests a redraw at every elapsed time below the delay, and requests
none once the elapsed time reaches the delay. -/
theorem motion_delay_terminal :
    motionProgress 2 false false (some 2) 0 = (0, true) ∧
    ∀ t : ℚ, (2 ≤ t → motionProgress 2 false false (some 2) t = (1, false)) ∧
      (t < 2 → (motionProgress 2 false false (some 2) t).2 = true) := by
  refine ⟨by norm_num [motionProgress, truthyQ], fun t => ⟨fun h => ?_, fun h => ?_⟩⟩
  · simp [motionProgress, truthyQ, h]
  · have h1 : ¬ (2 : ℚ) ≤ t := not_le.mpr h
    have h2 : ¬ (2 : ℚ) < t := not_lt.mpr h.le
    simp [motionProgress, truthyQ, h1, h2]

/-- Witness for C4: elapsed times `3` (past the delay: progress clamped to
`1`, no redraw) and `1` (below the delay: redraw requested). -/
theorem motion_delay_terminal_witness :
    (2 : ℚ) ≤ 3 ∧ motionProgress 2 false false (some 2) 3 = (1, false) ∧
    (1 : ℚ) < 2 ∧ (motionProgress 2 false false (some 2) 1).2 = true :=
  ⟨by norm_num, (motion_delay_terminal.2 3).1 (by norm_num),
   by norm_num, (motion_delay_terminal.2 1).2 (by norm_num)⟩

/-- C1: `Fixed.render` rebuilds `offsets` and `sizes` with exactly one
entry per child, but the base `Container.render` always sets both lists
to a single entry: a plain `Container` holding the two children
`[0, 1]` ends a render with `len(offsets) = len(sizes) = 1` while
`len(children) = 2`, contradicting the class's own documented invariant
that the lists hold one entry per child. -/
theorem container_bookkeeping_lengths :
    (∀ {V : Type} (sz place : V → ℚ × ℚ) (live : V → Bool) (children : List V),
      (fixedRenderBookkeeping sz place live children).1.length = children.length ∧
      (fixedRenderBookkeeping sz place live children).2.length = children.length) ∧
    (containerRenderBookkeeping (fun _ => ((1 : ℚ), (1 : ℚ))) 0 [0, 1]).1.length = 1 ∧
    (containerRenderBookkeeping (fun _ => ((1 : ℚ), (1 : ℚ))) 0 [0, 1]).2.length = 1 ∧
    ([0, 1] : List Nat).length = 2 := by
  refine ⟨?_, rfl, rfl, rfl⟩
  intro V sz place live children
  simp [fixedRenderBookkeeping]

/-- C8 counterexample: a `Zoom` with `time = 1` and an `after_child`
renders the `after_child` at `st = 1`, but a subsequent call with
`st = 0` goes back to rendering the zooming child — the switch is not
permanent, because `render` keeps no completion state. -/
theorem zoom_switch_not_permanent :
    zoomRender (⟨(100, 100), (0, 0, 50, 50), (0, 0, 100, 100), 1, 7, some 9⟩ :
      ZoomCfg Nat) 1 = ZoomOut.after 9 ∧
    zoomRender (⟨(100, 100), (0, 0, 50, 50), (0, 0, 100, 100), 1, 7, some 9⟩ :
      ZoomCfg Nat) 0 ≠ ZoomOut.after 9 := by
  constructor
  · norm_num [zoomRender]
  · norm_num [zoomRender, zoomRect]
    exact fun h => ZoomOut.noConfusion h

/-- C8 (amended): with an `after_child` configured and a nonnegative
`time`, a render returns the `after_child` exactly when `done = 1`, that
is when `time` is zero or `st ≥ time`; the switch persists under
nondecreasing time arguments, but is a pure function of the supplied
time, not a permanent state change. -/
theorem zoom_after_child_terminal {V : Type} (z : ZoomCfg V) (a : V)
    (ha : z.afterChild = some a) (ht : 0 ≤ z.time) (st : ℚ) :
    (zoomRender z st = ZoomOut.after a ↔ (z.time = 0 ∨ z.time ≤ st)) ∧
    (∀ st', st ≤ st' → zoomRender z st = ZoomOut.after a →
      zoomRender z st' = ZoomOut.after a) := by
  have key : ∀ u : ℚ, zoomRender z u = ZoomOut.after a ↔ (z.time = 0 ∨ z.time ≤ u) := by
    intro u
    by_cases h0 : z.time = 0
    · simp [zoomRender, ha, h0]
    · have hpos : 0 < z.time := lt_of_le_of_ne ht (Ne.symm h0)
      by_cases hd : z.time ≤ u
      · have h1 : (1 : ℚ) ≤ u / z.time := (one_le_div hpos).mpr hd
        simp [zoomRender, ha, h0, min_eq_right h1, hd]
      · have h1 : u / z.time < 1 := (div_lt_one hpos).mpr (not_le.mp hd)
        simp [zoomRender, ha, h0, min_eq_left h1.le, h1.ne, hd]
  refine ⟨key st, fun st' hle h => ?_⟩
  rcases (key st).mp h with h0 | hst
  · exact (key st').mpr (Or.inl h0)
  · exact (key st').mpr (Or.inr (hst.trans hle))

/-- Witness for C8 (amended): `time = 1`, `after_child` present: at
`st = 2` the `after_child` is rendered, and it still is at `st = 3`. -/
theorem zoom_after_child_terminal_witness :
    (zoomRender (⟨(100, 100), (0, 0, 50, 50), (0, 0, 100, 100), 1, 7, some 9⟩ :
        ZoomCfg Nat) 2 = ZoomOut.after 9 ↔ ((1 : ℚ) = 0 ∨ (1 : ℚ) ≤ 2)) ∧
    (∀ st', (2 : ℚ) ≤ st' →
      zoomRender (⟨(100, 100), (0, 0, 50, 50), (0, 0, 100, 100), 1, 7, some 9⟩ :
        ZoomCfg Nat) 2 = ZoomOut.after 9 →
      zoomRender (⟨(100, 100), (0, 0, 50, 50), (0, 0, 100, 100), 1, 7, some 9⟩ :
        ZoomCfg Nat) st' = ZoomOut.after 9) :=
  zoom_after_child_terminal
    (⟨(100, 100), (0, 0, 50, 50), (0, 0, 100, 100), 1, 7, some 9⟩ : ZoomCfg Nat)
    9 rfl (by norm_num) 2

/-- C9: calling an `SMAnimation` as a transition primitive runs
`State.motion_copy` on every state; for a state whose image slot is
unset the slot is replaced by the supplied child, but for any state
holding a non-`None` image the line `child = self.mage` raises
`AttributeError` (the field is named `image`), instead of keeping the
state's own image as documented. -/
theorem motion_copy_mage_attribute_error :
    smCall [(⟨"a", some 7, [1]⟩ : AnimState Nat)] (some 3) none =
      Except.error ("AttributeError: State object has no attribute mage") ∧
    smCall [(⟨"b", none, [2]⟩ : AnimState Nat)] none (some 3) =
      Except.ok [⟨"b", some 3, [2]⟩] := by
  constructor <;> rfl

/-- C10: `ui.close` raises exactly when the widget/layer stack is empty or
the most recently opened widget is a pending single-use widget
(`current_once`), leaving the state untouched in both cases; after
`ui.window`/`ui.button`/`ui.sizer` succeed (single-use open), `close`
raises without popping; and a successful `close` pops exactly one
entry. -/
theorem ui_close_guards {V : Type} (s : UIState V) :
    ((uiClose s).2.isSome ↔ (s.current_stack = [] ∨ s.current_once = true)) ∧
    ((uiClose s).2.isSome → (uiClose s).1 = s) ∧
    (∀ w : V, (uiOpenOnce s w).2 = none →
      (uiClose (uiOpenOnce s w).1).2 =
          some ("ui.close() called when expecting a widget.") ∧
        (uiClose (uiOpenOnce s w).1).1 = (uiOpenOnce s w).1) ∧
    ((uiClose s).2 = none →
      s.current_stack = (uiClose s).1.current :: (uiClose s).1.current_stack ∧
      (uiClose s).1.current_once = s.current_once) := by
  obtain ⟨c, stack, once⟩ := s
  refine ⟨?_, ?_, ?_, ?_⟩
  · cases stack <;> cases once <;> simp [uiClose]
  · cases stack <;> cases once <;> simp [uiClose]
  · intro w hok
    cases stack with
    | nil =>
        cases once with
        | false => simp [uiClose, uiOpenOnce, uiAdd]
        | true => simp [uiClose, uiOpenOnce, uiAdd] at hok
    | cons c' rest =>
        cases once <;> simp [uiClose, uiOpenOnce, uiAdd]
  · cases stack with
    | nil => simp [uiClose]
    | cons c' rest => cases once <;> simp [uiClose]

/-- Witness for C10: from the initial module state (`current =
'transient'`, empty stack, no pending single-use widget), opening a
window succeeds, after which `close` raises the expecting-a-widget
error and leaves the state unchanged — even though the stack is
nonempty. -/
theorem ui_close_guards_witness :
    (uiOpenOnce (⟨Sum.inl ("transient"), [], false⟩ : UIState Nat) 5).2 = none ∧
    (uiClose (uiOpenOnce (⟨Sum.inl ("transient"), [], false⟩ : UIState Nat) 5).1).2 =
      some ("ui.close() called when expecting a widget.") ∧
    (uiClose (uiOpenOnce (⟨Sum.inl ("transient"), [], false⟩ : UIState Nat) 5).1).1 =
      (uiOpenOnce (⟨Sum.inl ("transient"), [], false⟩ : UIState Nat) 5).1 :=
  ⟨rfl,
    ((ui_close_guards (⟨Sum.inl ("transient"), [], false⟩ : UIState Nat)).2.2.1 5
      rfl).1,
    ((ui_close_guards (⟨Sum.inl ("transient"), [], false⟩ : UIState Nat)).2.2.1 5
      rfl).2⟩

/-- A pick never touches `edge_start`. -/
theorem pick_edge_edge_start (edges : String → List Edge)
    (ch : List Edge → Edge) (s : SMState) (name : String) :
    (pick_edge edges ch s name).edge_start = s.edge_start := by
  unfold pick_edge
  split <;> rfl

/-- C2 (amended): whenever the catch-up loop of `SMAnimation.render`
exits normally, there is a list `l` of completed edges such that
`edge_start` advanced by exactly the sum of their delays (never snapped
to the current time); each completed edge was strictly overdue
(`t > start-of-that-edge + delay`, the code's `>` test); the first
completed edge was the current edge and each next one was re-picked
from the previous edge's new state; and the loop stopped only once the
remaining current edge was no longer strictly overdue. -/
theorem sm_edge_start_accumulates
    (edges : String → List Edge) (choose : Nat → List Edge → Edge)
    (hchoose : ∀ n l, l ≠ [] → choose n l ∈ l) :
    ∀ (fuel n : Nat) (s : SMState) (t es : ℚ) (s' : SMState),
      s.edge_start = some es →
      smLoop edges choose fuel n s t = some s' →
      ∃ l : List Edge,
        s'.edge_start = some (es + (l.map Edge.delay).sum) ∧
        (∀ p e rest, l = p ++ e :: rest →
          es + ((p.map Edge.delay).sum + e.delay) < t) ∧
        (∀ e rest, l = e :: rest → s.edge = some e) ∧
        List.Chain' (fun a b => b ∈ edges a.new) l ∧
        (∀ e', s'.edge = some e' →
          t ≤ es + ((l.map Edge.delay).sum + e'.delay)) := by
  intro fuel
  induction fuel with
  | zero =>
      intro n s t es s' h0 hrun
      simp [smLoop] at hrun
  | succ fuel ih =>
      intro n s t es s' h0 hrun
      match hedge : s.edge with
      | none =>
          rw [smLoop] at hrun
          rw [hedge, h0] at hrun
          simp only [Option.some.injEq] at hrun
          subst hrun
          refine ⟨[], by simp [h0], by simp, by simp, List.chain'_nil, ?_⟩
          intro e' he'
          rw [hedge] at he'
          exact absurd he' (by simp)
      | some e =>
          rw [smLoop] at hrun
          rw [hedge, h0] at hrun
          simp only at hrun
          by_cases hgt : t > es + e.delay
          · rw [if_pos hgt] at hrun
            set s2 := pick_edge edges (choose n)
              { s with edge_start := some (es + e.delay) } e.new with hs2
            have h2 : s2.edge_start = some (es + e.delay) := by
              rw [hs2, pick_edge_edge_start]
            obtain ⟨l2, ha, hb, hc, hd, he⟩ :=
              ih (n + 1) s2 t (es + e.delay) s' h2 hrun
            refine ⟨e :: l2, ?_, ?_, ?_, ?_, ?_⟩
            · rw [ha]
              simp [add_assoc]
            · intro p f rest hp
              cases p with
              | nil =>
                  simp only [List.nil_append, List.cons.injEq] at hp
                  obtain ⟨hfe, -⟩ := hp
                  subst hfe
                  simpa using hgt
              | cons q p' =>
                  simp only [List.cons_append, List.cons.injEq] at hp
                  obtain ⟨hqe, hl2⟩ := hp
                  subst hqe
                  have := hb p' f rest hl2
                  simp only [List.map_cons, List.sum_cons]
                  linarith
            · intro f rest hf
              simp only [List.cons.injEq] at hf
              exact congrArg some hf.1
            · rw [List.chain'_cons']
              refine ⟨?_, hd⟩
              intro b hbmem
              cases hl2 : l2 with
              | nil => rw [hl2] at hbmem; simp at hbmem
              | cons b0 rest2 =>
                  rw [hl2] at hbmem
                  simp only [List.head?_cons, Option.mem_def,
                    Option.some.injEq] at hbmem
                  subst hbmem
                  have hs2e : s2.edge = some b0 := hc b0 rest2 hl2
                  rw [hs2] at hs2e
                  unfold pick_edge at hs2e
                  by_cases hemp : edges e.new = []
                  · rw [if_pos hemp] at hs2e
                    simp at hs2e
                  · rw [if_neg hemp] at hs2e
                    simp only [Option.some.injEq] at hs2e
                    rw [← hs2e]
                    exact hchoose n (edges e.new) hemp
            · intro e' he'
              have := he e' he'
              simp only [List.map_cons, List.sum_cons]
              linarith
          · rw [if_neg hgt] at hrun
            simp only [Option.some.injEq] at hrun
            subst hrun
            refine ⟨[], by simp [h0], by simp, by simp, List.chain'_nil, ?_⟩
            intro e' he'
            rw [hedge] at he'
            simp only [Option.some.injEq] at he'
            subst he'
            simpa using not_lt.mp hgt


/-- One iteration of the catch-up loop when the current edge is strictly
overdue. -/
theorem smLoop_step_gt (edges : String → List Edge)
    (choose : Nat → List Edge → Edge) (fuel n : Nat) (s : SMState) (t : ℚ)
    (e : Edge) (es : ℚ) (he : s.edge = some e) (hes : s.edge_start = some es)
    (h : t > es + e.delay) :
    smLoop edges choose (fuel + 1) n s t =
      smLoop edges choose fuel (n + 1)
        (pick_edge edges (choose n)
          { s with edge_start := some (es + e.delay) } e.new) t := by
  rw [smLoop, he, hes]
  simp only
  rw [if_pos h]

/-- Exit of the catch-up loop when the current edge is not strictly
overdue. -/
theorem smLoop_exit_le (edges : String → List Edge)
    (choose : Nat → List Edge → Edge) (fuel n : Nat) (s : SMState) (t : ℚ)
    (e : Edge) (es : ℚ) (he : s.edge = some e) (hes : s.edge_start = some es)
    (h : ¬ t > es + e.delay) :
    smLoop edges choose (fuel + 1) n s t = some s := by
  rw [smLoop, he, hes]
  simp only
  rw [if_neg h]

/-- C2 counterexample: with the one-edge machine `A→B (delay 1)` and the
current edge started at time `0`, a render at `t = 1` meets the claim's
trigger `t ≥ edge-start + delay`, yet the code's strict `>` test leaves
`edge_start` at `0` with the same current edge: no transition happens
at the exact expiry instant. -/
theorem sm_boundary_no_advance :
    (1 : ℚ) ≥ 0 + eAB.delay ∧
    smRenderUpdate (buildEdges [eAB]) (fun _ l => l.headD eAB) "A" 100
      ⟨some 0, some eAB, some ("B")⟩ 1 = some ⟨some 0, some eAB, some ("B")⟩ := by
  constructor
  · norm_num [eAB]
  · have h1 : smRenderUpdate (buildEdges [eAB]) (fun _ l => l.headD eAB) "A" 100
        ⟨some 0, some eAB, some ("B")⟩ 1 =
        smLoop (buildEdges [eAB]) (fun n => (fun _ (l : List Edge) => l.headD eAB) (n + 1))
          100 0 ⟨some 0, some eAB, some ("B")⟩ 1 := by
      rw [smRenderUpdate]
      norm_num
    rw [h1]
    exact smLoop_exit_le _ _ 99 0 _ _ eAB 0 rfl rfl (by norm_num [eAB])

/-- Witness for C2 (amended): the round-trip machine `A→B→A` (both delays
`1`), current edge `A→B` started at `0`, rendered at `t = 5/2`: the loop
completes the two strictly overdue edges and stops with
`edge_start = 0 + (1 + 1) = 2`. -/
theorem sm_edge_start_accumulates_witness :
    ∃ l : List Edge,
      (⟨some 2, some eAB, some ("B")⟩ : SMState).edge_start =
        some (0 + (l.map Edge.delay).sum) ∧
      (∀ p e rest, l = p ++ e :: rest →
        0 + ((p.map Edge.delay).sum + e.delay) < (5/2 : ℚ)) ∧
      (∀ e rest, l = e :: rest →
        (⟨some 0, some eAB, some ("B")⟩ : SMState).edge = some e) ∧
      List.Chain' (fun a b => b ∈ buildEdges [eAB, eBA] a.new) l ∧
      (∀ e', (⟨some 2, some eAB, some ("B")⟩ : SMState).edge = some e' →
        (5/2 : ℚ) ≤ 0 + ((l.map Edge.delay).sum + e'.delay)) :=
  sm_edge_start_accumulates (buildEdges [eAB, eBA]) (fun _ l => l.headD eAB)
    (by
      intro n l hl
      cases l with
      | nil => exact absurd rfl hl
      | cons a as => simp [List.headD])
    10 0 ⟨some 0, some eAB, some ("B")⟩ (5/2) 0 ⟨some 2, some eAB, some ("B")⟩
    rfl
    (by
      have hB : buildEdges [eAB, eBA] "B" = [eBA] := by decide
      have hA : buildEdges [eAB, eBA] "A" = [eAB] := by decide
      have hp1 : pick_edge (buildEdges [eAB, eBA])
          ((fun (x : Nat) (l : List Edge) => l.headD eAB) 0)
          ⟨some (0 + eAB.delay), some eAB, some ("B")⟩ "B" =
          ⟨some (0 + eAB.delay), some eBA, some ("A")⟩ := by
        rw [pick_edge, hB]
        simp [eBA]
      have hp2 : pick_edge (buildEdges [eAB, eBA])
          ((fun (x : Nat) (l : List Edge) => l.headD eAB) 1)
          ⟨some (0 + eAB.delay + eBA.delay), some eBA, some ("A")⟩ "A" =
          ⟨some (0 + eAB.delay + eBA.delay), some eAB, some ("B")⟩ := by
        rw [pick_edge, hA]
        simp [eAB]
      refine Eq.trans (smLoop_step_gt _ _ 9 0 _ _ eAB 0 rfl rfl
        (by norm_num [eAB])) ?_
      refine Eq.trans (congrArg (fun z => smLoop (buildEdges [eAB, eBA])
        (fun x (l : List Edge) => l.headD eAB) 9 1 z (5/2)) hp1) ?_
      refine Eq.trans (smLoop_step_gt _ _ 8 1 _ _ eBA (0 + eAB.delay) rfl rfl
        (by norm_num [eAB, eBA])) ?_
      refine Eq.trans (congrArg (fun z => smLoop (buildEdges [eAB, eBA])
        (fun x (l : List Edge) => l.headD eAB) 8 2 z (5/2)) hp2) ?_
      refine Eq.trans (smLoop_exit_le _ _ 7 2 _ _ eAB (0 + eAB.delay + eBA.delay)
        rfl rfl (by norm_num [eAB, eBA])) ?_
      norm_num [eAB, eBA])
